import Mathlib

/-!
Verification of `scripts/gosec-compare.py`: the fingerprinting, path
normalization, loading and diff logic of the gosec baseline-comparison tool.

Python strings are modelled as `List Char`; Python `dict`s keyed by strings
are modelled as association lists in insertion order with unique keys.
Only "\n" line endings are modelled for `str.splitlines`, and `str.strip()`
strips the ASCII whitespace recognized by `Char.isWhitespace`; the inputs
handled by the tool (gosec JSON fields) use neither exotic line endings nor
exotic Unicode whitespace.
-/

set_option maxRecDepth 8192

namespace GosecCompare

/-- Python strings, modelled as lists of characters. -/
abbrev PyStr := List Char

/-- Convert a Lean string literal to the model type. -/
def pystr (s : String) : PyStr := s.toList

/-- Characters removed by Python `str.strip()` with no argument. -/
def isPySpace (c : Char) : Bool := c.isWhitespace

/-- Python `str.lstrip()` restricted to a predicate. -/
def lstripWith (p : Char → Bool) (s : PyStr) : PyStr := s.dropWhile p

/-- Python `str.rstrip()` restricted to a predicate. -/
def rstripWith (p : Char → Bool) : PyStr → PyStr
  | [] => []
  | c :: t =>
    match rstripWith p t with
    | [] => if p c then [] else [c]
    | d :: r => c :: d :: r

/-- Python `str.strip()`. -/
def pyStrip (s : PyStr) : PyStr := rstripWith isPySpace (lstripWith isPySpace s)

/-- Python `str.find(pat)`: index of the first occurrence, `none` when absent. -/
def findSub (pat : PyStr) : PyStr → Option Nat
  | [] => if pat.isPrefixOf ([] : PyStr) then some 0 else none
  | c :: t =>
    if pat.isPrefixOf (c :: t) then some 0
    else (findSub pat t).map (fun i => i + 1)

/-- Python `pat in s` for strings. -/
def containsSub (s pat : PyStr) : Bool := (findSub pat s).isSome

/-- Split at every newline character (yields the `n+1` fragments). -/
def splitOnNl : PyStr → List PyStr
  | [] => [[]]
  | c :: t =>
    if c = '\n' then [] :: splitOnNl t
    else
      match splitOnNl t with
      | [] => [[c]]
      | h :: r => (c :: h) :: r

/-- Python `str.splitlines()` (modulo only-"\n" line endings): no trailing
empty fragment is produced for a trailing newline, and `""` gives `[]`. -/
def pySplitlines (s : PyStr) : List PyStr :=
  match s with
  | [] => []
  | _ =>
    if s.getLast? = some '\n' then (splitOnNl s).dropLast else splitOnNl s

/-- Python `sep.join(parts)`. -/
def pyJoin (sep : PyStr) : List PyStr → PyStr
  | [] => []
  | [x] => x
  | x :: y :: r => x ++ sep ++ pyJoin sep (y :: r)

/-- The separator `": "` that the anchor extraction splits on. -/
def sepCS : PyStr := [':', ' ']

/-- One iteration of the loop body of `_anchor`: the line is stripped; a
blank line contributes nothing; otherwise, when `": "` occurs, the part after
its first occurrence (re-stripped) is kept, else the stripped line itself. -/
def cleanLine (raw : PyStr) : Option PyStr :=
  let s := pyStrip raw
  if s = [] then none
  else
    match findSub sepCS s with
    | some i => some (pyStrip (s.drop (i + 2)))
    | none => some s

/-- `_anchor` from gosec-compare.py: first two kept lines joined by `" | "`
(the source loop breaks once two lines are collected, which equals taking
the first two results of the per-line processing). -/
def anchorOf (code : PyStr) : PyStr :=
  pyJoin (pystr " | ") (((pySplitlines code).filterMap cleanLine).take 2)

/-- `_MODULE_ROOT_MARKERS`: top-level directories that immediately follow
the module root, used to strip OS-specific absolute prefixes. -/
def MODULE_ROOT_MARKERS : List PyStr :=
  [pystr "/internal/", pystr "/cmd/", pystr "/pkg/", pystr "/scripts/",
   pystr "/api/", pystr "/docs/", pystr "/test/", pystr "/vendor/"]

/-- `raw.replace("\\", "/")`: single-character replacement is a map. -/
def replaceBackslashes (s : PyStr) : PyStr :=
  s.map (fun c => if c = '\\' then '/' else c)

/-- The `base_fwd` value computed inside `_normalize_path`:
`str(base_dir).replace("\\", "/").rstrip("/") + "/"`. -/
def base_fwd_of (base_dir : PyStr) : PyStr :=
  rstripWith (fun c => c == '/') (replaceBackslashes base_dir) ++ ['/']

/-- The marker-scanning loop of `_normalize_path`: for each marker in order,
return the first find index in `norm` of the first marker that occurs. -/
def findFirstMarker : List PyStr → PyStr → Option Nat
  | [], _ => none
  | m :: ms, norm =>
    match findSub m norm with
    | some idx => some idx
    | none => findFirstMarker ms norm

/-- `_normalize_path` from gosec-compare.py. -/
def normalize_path (raw_file : PyStr) (base_dir : PyStr) : PyStr :=
  let norm := replaceBackslashes raw_file
  let base_fwd := base_fwd_of base_dir
  if base_fwd.isPrefixOf norm then norm.drop base_fwd.length
  else
    match findFirstMarker MODULE_ROOT_MARKERS norm with
    | some idx => norm.drop (idx + 1)
    | none => norm

/-- One gosec issue, as the dict fields the script reads. A `none` field
models an absent key (`issue.get(...)` supplies the default). -/
structure Issue where
  rule_id : Option PyStr
  file : Option PyStr
  line : Option PyStr
  details : Option PyStr
  code : Option PyStr
  nosec : Option Bool
deriving DecidableEq, Repr

/-- `fingerprint` from gosec-compare.py:
`f"{rule}:{rel}:{details}:{anchor}"`. -/
def fingerprint (issue : Issue) (base_dir : PyStr) : PyStr :=
  let rule := issue.rule_id.getD []
  let rel := normalize_path (issue.file.getD []) base_dir
  let details := issue.details.getD []
  let anchor := anchorOf (issue.code.getD [])
  rule ++ [':'] ++ rel ++ [':'] ++ details ++ [':'] ++ anchor

/-- The `Stats` mapping of a gosec document (fields the script reads);
`none` models an absent key. -/
structure Stats where
  files : Option Int
  lines : Option Int
  nosec : Option Int
deriving DecidableEq, Repr

/-- The empty `Stats` dict `{}` (every key absent). -/
def emptyStats : Stats := ⟨none, none, none⟩

/-- A parsed gosec JSON document. `Issues = none` models an absent key,
`Issues = some none` a present key holding `null`, `Issues = some (some l)`
a present list. -/
structure Doc where
  Issues : Option (Option (List Issue))
  Stats : Option Stats
deriving DecidableEq, Repr

/-- `data.get("Issues") or []`: absent, `null` and the (falsy) empty list
all give the empty list. -/
def docIssues (d : Doc) : List Issue :=
  match d.Issues with
  | some (some l) => if l.isEmpty then [] else l
  | _ => []

/-- A Python dict from fingerprint to issue, in insertion order with unique
keys. -/
abbrev FindingSet := List (PyStr × Issue)

/-- Python dict insertion: an existing key keeps its position and gets the
new value; a new key is appended. -/
def dictInsert (m : FindingSet) (k : PyStr) (v : Issue) : FindingSet :=
  if m.any (fun p => p.1 == k) then
    m.map (fun p => if p.1 = k then (k, v) else p)
  else m ++ [(k, v)]

/-- The keys of a finding set (`set(d)` ranges over a dict's keys). -/
def dictKeys (m : FindingSet) : List PyStr := m.map Prod.fst

/-- Python `fp in d`. -/
def dictMem (m : FindingSet) (k : PyStr) : Bool := decide (k ∈ dictKeys m)

/-- Python `d[fp]` (defined lookups only; `none` would be a `KeyError`). -/
def dictGet? (m : FindingSet) (k : PyStr) : Option Issue :=
  (m.find? (fun p => decide (p.1 = k))).map Prod.snd

/-- The outcome of `open(path)` + `json.load(fh)`, the part of the loader
that touches the outside world: the file is missing/unreadable, the content
is not valid JSON, or a document was parsed. -/
inductive RawInput where
  | missing
  | malformed
  | parsed (d : Doc)
deriving DecidableEq

/-- The spec's `LoadError`: in the source an uncaught `OSError` /
`json.JSONDecodeError` escaping `load_findings`. -/
inductive LoadError where
  | loadError
deriving DecidableEq, Repr

/-- The loop of `load_findings` (lines 92-97): keep the unsuppressed issues
and key them by fingerprint, last-seen winning. -/
def loadedFps (data : Doc) (base_dir : PyStr) : FindingSet :=
  let issues := docIssues data
  let active := issues.filter (fun i => !(i.nosec.getD false))
  active.foldl (fun m issue => dictInsert m (fingerprint issue base_dir) issue) []

/-- `load_findings` from gosec-compare.py. -/
def load_findings (input : RawInput) (base_dir : PyStr) :
    Except LoadError (FindingSet × Stats) :=
  match input with
  | RawInput.missing => Except.error LoadError.loadError
  | RawInput.malformed => Except.error LoadError.loadError
  | RawInput.parsed data =>
    Except.ok (loadedFps data base_dir, data.Stats.getD emptyStats)

/-- Lexicographic comparison of fingerprints, as Python `<=` on strings
(character code points). -/
def strLeB : PyStr → PyStr → Bool
  | [], _ => true
  | _ :: _, [] => false
  | a :: as, b :: bs => if a < b then true else if b < a then false else strLeB as bs

/-- The ordering used by `sorted` on fingerprints. -/
def strLe (a b : PyStr) : Prop := strLeB a b = true

instance : DecidableRel strLe := fun a b =>
  inferInstanceAs (Decidable (strLeB a b = true))

/-- Python `sorted` on a collection of fingerprints. -/
def pySorted (l : List PyStr) : List PyStr := List.insertionSort strLe l

/-- `set(current) - set(baseline)` (as the sub-list of `current`'s keys,
which are unique). -/
def new_fps (current baseline : FindingSet) : List PyStr :=
  (dictKeys current).filter (fun fp => !(dictMem baseline fp))

/-- `set(baseline) - set(current)`. -/
def resolved_fps (current baseline : FindingSet) : List PyStr :=
  (dictKeys baseline).filter (fun fp => !(dictMem current fp))

/-- `sorted(new_fps)`. -/
def sorted_new_fps (current baseline : FindingSet) : List PyStr :=
  pySorted (new_fps current baseline)

/-- `sorted(resolved_fps)`. -/
def sorted_resolved_fps (current baseline : FindingSet) : List PyStr :=
  pySorted (resolved_fps current baseline)

/-- `[current[fp] for fp in sorted(new_fps)]`. -/
def new_issues (current baseline : FindingSet) : List Issue :=
  (sorted_new_fps current baseline).filterMap (dictGet? current)

/-- `[baseline[fp] for fp in sorted(resolved_fps)]`. -/
def resolved_issues (current baseline : FindingSet) : List Issue :=
  (sorted_resolved_fps current baseline).filterMap (dictGet? baseline)

/-- What `main` computes and how it exits. -/
structure RunResult where
  new_issues : List Issue
  resolved_issues : List Issue
  exit_code : Nat
deriving DecidableEq, Repr

/-- The process exit status of `main` once the diff is computed
(lines 186-207). The resolved-findings listing (line 189) indexes
`i["rule_id"]` directly — not `.get` — so a resolved finding with no
rule_id key raises `KeyError` and the Python process dies with status 1
*before* the exit decision at line 191. Otherwise the process exits 0 when
there are no new findings and 1 when there are; every failure past the
exit-0 gate (the new-findings listing at line 198 also indexes
`i["rule_id"]`, and building or writing the report body can raise) ends
the process with status 1 as well, coinciding with `sys.exit(1)`. -/
def exitStatus (n r : List Issue) : Nat :=
  if r.any (fun i => i.rule_id.isNone) then 1
  else if n = [] then 0 else 1

/-- The comparison pipeline of `main`: load both documents (either failure
aborts the run with no result), diff, print the summary, and exit with
`exitStatus` (0 on no new findings, 1 on new findings or on the
resolved-listing `KeyError` of line 189). -/
def runMain (results baseline : RawInput) (base_dir : PyStr) :
    Except LoadError RunResult := do
  let (current, _stats_cur) ← load_findings results base_dir
  let (base, _stats_base) ← load_findings baseline base_dir
  let n := new_issues current base
  let r := resolved_issues current base
  pure ⟨n, r, exitStatus n r⟩

end GosecCompare

namespace GosecCompare

/-! ### Lemmas on the string primitives -/

theorem rstripWith_cons (p : Char → Bool) (c : Char) (t : PyStr) :
    rstripWith p (c :: t) =
      match rstripWith p t with
      | [] => if p c then [] else [c]
      | d :: r => c :: d :: r := rfl

theorem rstripWith_cons_of_eq_nil (p : Char → Bool) (c : Char) {t : PyStr}
    (h : rstripWith p t = []) :
    rstripWith p (c :: t) = if p c then [] else [c] := by
  rw [rstripWith_cons, h]

theorem rstripWith_cons_of_eq_cons (p : Char → Bool) (c : Char) {t : PyStr} {d : Char}
    {r : PyStr} (h : rstripWith p t = d :: r) :
    rstripWith p (c :: t) = c :: d :: r := by
  rw [rstripWith_cons, h]

theorem rstripWith_idem (p : Char → Bool) (l : PyStr) :
    rstripWith p (rstripWith p l) = rstripWith p l := by
  induction l with
  | nil => rfl
  | cons c t ih =>
    cases h : rstripWith p t with
    | nil =>
      rw [rstripWith_cons_of_eq_nil p c h]
      by_cases hp : p c = true
      · rw [if_pos hp]
        rfl
      · rw [if_neg hp]
        rw [rstripWith_cons_of_eq_nil p c (show rstripWith p ([] : PyStr) = [] from rfl)]
        rw [if_neg hp]
    | cons d r =>
      rw [rstripWith_cons_of_eq_cons p c h]
      rw [h] at ih
      exact rstripWith_cons_of_eq_cons p c ih

theorem dropWhile_rstripWith (p : Char → Bool) (l : PyStr) :
    List.dropWhile p (rstripWith p l) = rstripWith p (List.dropWhile p l) := by
  induction l with
  | nil => rfl
  | cons c t ih =>
    by_cases hp : p c = true
    · have h2 : List.dropWhile p (c :: t) = List.dropWhile p t := by
        rw [List.dropWhile_cons, if_pos hp]
      cases h : rstripWith p t with
      | nil =>
        rw [h, List.dropWhile_nil] at ih
        rw [rstripWith_cons_of_eq_nil p c h, if_pos hp, h2, List.dropWhile_nil]
        exact ih
      | cons d r =>
        rw [h] at ih
        have h1 : List.dropWhile p (c :: d :: r) = List.dropWhile p (d :: r) := by
          rw [List.dropWhile_cons, if_pos hp]
        rw [rstripWith_cons_of_eq_cons p c h, h1, h2]
        exact ih
    · have h2 : List.dropWhile p (c :: t) = c :: t := by
        rw [List.dropWhile_cons, if_neg hp]
      cases h : rstripWith p t with
      | nil =>
        have h1 : List.dropWhile p [c] = [c] := by
          rw [List.dropWhile_cons, if_neg hp]
        rw [rstripWith_cons_of_eq_nil p c h, if_neg hp, h1, h2,
          rstripWith_cons_of_eq_nil p c h, if_neg hp]
      | cons d r =>
        have h1 : List.dropWhile p (c :: d :: r) = c :: d :: r := by
          rw [List.dropWhile_cons, if_neg hp]
        rw [rstripWith_cons_of_eq_cons p c h, h1, h2, rstripWith_cons_of_eq_cons p c h]

theorem pyStrip_eq_dropWhile_rstrip (l : PyStr) :
    pyStrip l = List.dropWhile isPySpace (rstripWith isPySpace l) := by
  unfold pyStrip lstripWith
  rw [dropWhile_rstripWith]

theorem pyStrip_rstrip (l : PyStr) :
    pyStrip (rstripWith isPySpace l) = pyStrip l := by
  rw [pyStrip_eq_dropWhile_rstrip, pyStrip_eq_dropWhile_rstrip l, rstripWith_idem]

theorem rstrip_ne_nil_of_pyStrip_ne_nil {l : PyStr} (h : pyStrip l ≠ []) :
    rstripWith isPySpace l ≠ [] := by
  intro hnil
  apply h
  rw [pyStrip_eq_dropWhile_rstrip, hnil]
  rfl

theorem rstripWith_append_of_ne_nil (p : Char → Bool) (xs : PyStr) {ys : PyStr}
    (h : rstripWith p ys ≠ []) :
    rstripWith p (xs ++ ys) = xs ++ rstripWith p ys := by
  induction xs with
  | nil => rfl
  | cons x t ih =>
    have hne : rstripWith p (t ++ ys) ≠ [] := by
      rw [ih]
      intro hc
      exact h (List.append_eq_nil.mp hc).2
    cases hrest : rstripWith p (t ++ ys) with
    | nil => exact absurd hrest hne
    | cons d r =>
      rw [List.cons_append, rstripWith_cons_of_eq_cons p x hrest, ← hrest, ih,
        List.cons_append]

/-! ### Lemmas on digits, whitespace and the `": "` separator -/

theorem digit_ne_colon {x : Char} (h : x.isDigit = true) : x ≠ ':' := by
  intro he
  rw [he] at h
  exact absurd h (by decide)

theorem digit_not_space {x : Char} (h : x.isDigit = true) : isPySpace x = false := by
  by_contra hns
  have hw : x.isWhitespace = true := by
    unfold isPySpace at hns
    revert hns
    cases x.isWhitespace <;> simp
  have : x = ' ' ∨ x = '\t' ∨ x = '\x0d' ∨ x = '\n' := by
    unfold Char.isWhitespace at hw
    simp only [Bool.or_eq_true, decide_eq_true_eq] at hw
    tauto
  rcases this with h1 | h1 | h1 | h1 <;> rw [h1] at h <;> exact absurd h (by decide)

theorem findSub_sepCS_digits {d : PyStr} (hd : ∀ ch ∈ d, ch.isDigit = true) (t : PyStr) :
    findSub sepCS (d ++ ':' :: ' ' :: t) = some d.length := by
  induction d with
  | nil =>
    show findSub sepCS (':' :: ' ' :: t) = some 0
    unfold findSub
    rw [if_pos]
    show List.isPrefixOf [':', ' '] (':' :: ' ' :: t) = true
    simp [List.isPrefixOf]
  | cons x d' ih =>
    have hx : x.isDigit = true := hd x (List.mem_cons_self x d')
    have hd' : ∀ ch ∈ d', ch.isDigit = true := fun ch hch => hd ch (List.mem_cons_of_mem x hch)
    show findSub sepCS (x :: (d' ++ ':' :: ' ' :: t)) = some (d'.length + 1)
    unfold findSub
    rw [if_neg]
    · rw [ih hd']
      rfl
    · show ¬List.isPrefixOf [':', ' '] (x :: (d' ++ ':' :: ' ' :: t)) = true
      simp only [List.isPrefixOf, Bool.and_eq_true, beq_iff_eq]
      intro hc
      exact digit_ne_colon hx hc.1.symm

theorem drop_digits_sepCS {d : PyStr} (t : PyStr) :
    (d ++ ':' :: ' ' :: t).drop (d.length + 2) = t := by
  have h : d ++ ':' :: ' ' :: t = (d ++ [':', ' ']) ++ t := by simp
  have hl : (d ++ [':', ' ']).length = d.length + 2 := by simp
  rw [h, ← hl, List.drop_left]

/-- Processing one gosec-numbered line `"<digits>: <content>"` keeps exactly
the stripped content, independently of the digits — provided the content is
not blank. -/
theorem cleanLine_numbered {d c : PyStr} (hd0 : d ≠ [])
    (hd : ∀ ch ∈ d, ch.isDigit = true) (hc : pyStrip c ≠ []) :
    cleanLine (d ++ ':' :: ' ' :: c) = some (pyStrip c) := by
  obtain ⟨x, d', rfl⟩ := List.exists_cons_of_ne_nil hd0
  have hx : x.isDigit = true := hd x (List.mem_cons_self x d')
  have hrc : rstripWith isPySpace c ≠ [] := rstrip_ne_nil_of_pyStrip_ne_nil hc
  have hstrip : pyStrip ((x :: d') ++ ':' :: ' ' :: c)
      = (x :: d') ++ ':' :: ' ' :: rstripWith isPySpace c := by
    unfold pyStrip lstripWith
    rw [List.cons_append, List.dropWhile_cons,
      if_neg (by rw [digit_not_space hx]; simp)]
    rw [← List.cons_append]
    have hsplit : (x :: d') ++ ':' :: ' ' :: c = ((x :: d') ++ [':']) ++ (' ' :: c) := by simp
    have hsplit2 : (x :: d') ++ ':' :: ' ' :: rstripWith isPySpace c
        = ((x :: d') ++ [':']) ++ (' ' :: rstripWith isPySpace c) := by simp
    rw [hsplit, hsplit2, rstripWith_append_of_ne_nil]
    · congr 1
      cases hr : rstripWith isPySpace c with
      | nil => exact absurd hr hrc
      | cons e r => rw [rstripWith_cons_of_eq_cons isPySpace ' ' hr]
    · cases hr : rstripWith isPySpace c with
      | nil => exact absurd hr hrc
      | cons e r =>
        rw [rstripWith_cons_of_eq_cons isPySpace ' ' hr]
        simp
  unfold cleanLine
  rw [hstrip]
  rw [if_neg (by simp)]
  rw [findSub_sepCS_digits hd (rstripWith isPySpace c)]
  have hdrop : ((x :: d') ++ ':' :: ' ' :: rstripWith isPySpace c).drop ((x :: d').length + 2)
      = rstripWith isPySpace c := drop_digits_sepCS (rstripWith isPySpace c)
  show some (pyStrip (List.drop ((x :: d').length + 2)
      (x :: d' ++ ':' :: ' ' :: rstripWith isPySpace c))) = some (pyStrip c)
  rw [show List.drop ((x :: d').length + 2) (x :: d' ++ ':' :: ' ' :: rstripWith isPySpace c)
      = rstripWith isPySpace c from hdrop, pyStrip_rstrip]

/-! ### Lemmas on line splitting and joining -/

theorem splitOnNl_cons (c : Char) (t : PyStr) :
    splitOnNl (c :: t) =
      if c = '\n' then [] :: splitOnNl t
      else
        match splitOnNl t with
        | [] => [[c]]
        | h :: r => (c :: h) :: r := rfl

theorem pySplitlines_cons (a : Char) (t : PyStr) :
    pySplitlines (a :: t) =
      if (a :: t).getLast? = some '\n' then (splitOnNl (a :: t)).dropLast
      else splitOnNl (a :: t) := rfl

theorem splitOnNl_no_nl {xs : PyStr} (h : '\n' ∉ xs) : splitOnNl xs = [xs] := by
  induction xs with
  | nil => rfl
  | cons c t ih =>
    have hc : ¬c = '\n' := fun he => h (he ▸ List.mem_cons_self c t)
    have ht : '\n' ∉ t := fun hm => h (List.mem_cons_of_mem c hm)
    rw [splitOnNl_cons, if_neg hc, ih ht]

theorem splitOnNl_append_nl {xs : PyStr} (ys : PyStr) (h : '\n' ∉ xs) :
    splitOnNl (xs ++ '\n' :: ys) = xs :: splitOnNl ys := by
  induction xs with
  | nil =>
    show splitOnNl ('\n' :: ys) = [] :: splitOnNl ys
    rw [splitOnNl_cons, if_pos rfl]
  | cons c t ih =>
    have hc : ¬c = '\n' := fun he => h (he ▸ List.mem_cons_self c t)
    have ht : '\n' ∉ t := fun hm => h (List.mem_cons_of_mem c hm)
    rw [List.cons_append, splitOnNl_cons, if_neg hc, ih ht]

theorem pyJoin_cons_cons (sep x y : PyStr) (r : List PyStr) :
    pyJoin sep (x :: y :: r) = x ++ sep ++ pyJoin sep (y :: r) := rfl

theorem pyJoin_ne_nil {parts : List PyStr} (h : parts ≠ [])
    (hall : ∀ q ∈ parts, q ≠ []) (sep : PyStr) : pyJoin sep parts ≠ [] := by
  cases parts with
  | nil => exact absurd rfl h
  | cons x r =>
    cases r with
    | nil => exact hall x (List.mem_cons_self x [])
    | cons y r' =>
      rw [pyJoin_cons_cons]
      have hx : x ≠ [] := hall x (List.mem_cons_self x _)
      rw [List.append_assoc]
      exact List.append_ne_nil_of_left_ne_nil hx _

theorem splitOnNl_pyJoin {parts : List PyStr} (h : parts ≠ [])
    (hnl : ∀ q ∈ parts, '\n' ∉ q) :
    splitOnNl (pyJoin ['\n'] parts) = parts := by
  induction parts with
  | nil => exact absurd rfl h
  | cons x r ih =>
    cases r with
    | nil => exact splitOnNl_no_nl (hnl x (List.mem_cons_self x []))
    | cons y r' =>
      have hx : '\n' ∉ x := hnl x (List.mem_cons_self x _)
      have hr : ∀ q ∈ y :: r', '\n' ∉ q := fun q hq => hnl q (List.mem_cons_of_mem x hq)
      rw [pyJoin_cons_cons]
      have : x ++ ['\n'] ++ pyJoin ['\n'] (y :: r')
          = x ++ '\n' :: pyJoin ['\n'] (y :: r') := by simp
      rw [this, splitOnNl_append_nl _ hx, ih (List.cons_ne_nil y r') hr]

theorem getLast?_pyJoin_ne_nl {parts : List PyStr}
    (hall : ∀ q ∈ parts, q ≠ [] ∧ '\n' ∉ q) :
    ¬(pyJoin ['\n'] parts).getLast? = some '\n' := by
  induction parts with
  | nil => intro hc; exact Option.noConfusion hc
  | cons x r ih =>
    cases r with
    | nil =>
      intro hc
      exact (hall x (List.mem_cons_self x [])).2 (List.mem_of_mem_getLast? hc)
    | cons y r' =>
      have hr : ∀ q ∈ y :: r', q ≠ [] ∧ '\n' ∉ q :=
        fun q hq => hall q (List.mem_cons_of_mem x hq)
      have hJ : pyJoin ['\n'] (y :: r') ≠ [] :=
        pyJoin_ne_nil (List.cons_ne_nil y r') (fun q hq => (hr q hq).1) _
      rw [pyJoin_cons_cons, List.append_assoc,
        List.getLast?_append_of_ne_nil _ (List.append_ne_nil_of_left_ne_nil (by simp) _),
        List.getLast?_append_of_ne_nil _ hJ]
      exact ih hr

theorem pySplitlines_pyJoin {parts : List PyStr}
    (hall : ∀ q ∈ parts, q ≠ [] ∧ '\n' ∉ q) :
    pySplitlines (pyJoin ['\n'] parts) = parts := by
  cases hp : parts with
  | nil => rfl
  | cons x r =>
    subst hp
    have hne : pyJoin ['\n'] (x :: r) ≠ [] :=
      pyJoin_ne_nil (List.cons_ne_nil x r) (fun q hq => (hall q hq).1) _
    obtain ⟨a, t, hs⟩ := List.exists_cons_of_ne_nil hne
    rw [hs, pySplitlines_cons, ← hs,
      if_neg (getLast?_pyJoin_ne_nl hall),
      splitOnNl_pyJoin (List.cons_ne_nil x r) (fun q hq => (hall q hq).2)]

/-! ### gosec-numbered code snippets -/

/-- A snippet line in the gosec output format `"<digits>: <content>"`. -/
def numberedLine (pr : PyStr × PyStr) : PyStr := pr.1 ++ ':' :: ' ' :: pr.2

/-- A whole gosec code snippet: numbered lines joined by newlines. -/
def numberedCode (ls : List (PyStr × PyStr)) : PyStr :=
  pyJoin ['\n'] (ls.map numberedLine)

/-- A well-formed numbered snippet line: a nonempty decimal line number and a
single-line, non-blank content. -/
def goodLine (pr : PyStr × PyStr) : Prop :=
  pr.1 ≠ [] ∧ (∀ ch ∈ pr.1, ch.isDigit = true) ∧ '\n' ∉ pr.1 ∧ '\n' ∉ pr.2 ∧
    pyStrip pr.2 ≠ []

theorem numberedLine_ne_nil (pr : PyStr × PyStr) : numberedLine pr ≠ [] := by
  unfold numberedLine
  intro hc
  exact List.cons_ne_nil ':' _ (List.append_eq_nil.mp hc).2

theorem numberedLine_no_nl {pr : PyStr × PyStr} (h : goodLine pr) :
    '\n' ∉ numberedLine pr := by
  unfold numberedLine
  intro hc
  rcases List.mem_append.mp hc with h1 | h1
  · exact h.2.2.1 h1
  · rcases List.mem_cons.mp h1 with h2 | h1
    · exact absurd h2 (by decide)
    · rcases List.mem_cons.mp h1 with h2 | h2
      · exact absurd h2 (by decide)
      · exact h.2.2.2.1 h2

theorem filterMap_cleanLine_map {ls : List (PyStr × PyStr)}
    (h : ∀ pr ∈ ls, goodLine pr) :
    (ls.map numberedLine).filterMap cleanLine = ls.map (fun pr => pyStrip pr.2) := by
  induction ls with
  | nil => rfl
  | cons pr r ih =>
    have hpr : goodLine pr := h pr (List.mem_cons_self pr r)
    have hr : ∀ q ∈ r, goodLine q := fun q hq => h q (List.mem_cons_of_mem pr hq)
    rw [List.map_cons, List.map_cons, List.filterMap_cons]
    rw [show cleanLine (numberedLine pr) = some (pyStrip pr.2) from
      cleanLine_numbered hpr.1 hpr.2.1 hpr.2.2.2.2]
    rw [ih hr]

/-- The anchor of a well-formed numbered snippet depends only on the
(stripped) line contents, never on the line numbers. -/
theorem anchorOf_numberedCode {ls : List (PyStr × PyStr)}
    (h : ∀ pr ∈ ls, goodLine pr) :
    anchorOf (numberedCode ls)
      = pyJoin (pystr " | ") ((ls.map (fun pr => pyStrip pr.2)).take 2) := by
  unfold anchorOf numberedCode
  rw [pySplitlines_pyJoin (fun q hq => by
    rcases List.mem_map.mp hq with ⟨pr, hpr, rfl⟩
    exact ⟨numberedLine_ne_nil pr, numberedLine_no_nl (h pr hpr)⟩)]
  rw [filterMap_cleanLine_map h]

/-! ### Lemmas on path normalization -/

theorem normalize_path_def (raw_file base_dir : PyStr) :
    normalize_path raw_file base_dir =
      if (base_fwd_of base_dir).isPrefixOf (replaceBackslashes raw_file) then
        (replaceBackslashes raw_file).drop (base_fwd_of base_dir).length
      else
        match findFirstMarker MODULE_ROOT_MARKERS (replaceBackslashes raw_file) with
        | some idx => (replaceBackslashes raw_file).drop (idx + 1)
        | none => replaceBackslashes raw_file := rfl

theorem mem_replaceBackslashes_ne_bs {s : PyStr} {c : Char}
    (h : c ∈ replaceBackslashes s) : c ≠ '\\' := by
  rcases List.mem_map.mp h with ⟨a, _, ha⟩
  intro hc
  by_cases hab : a = '\\'
  · rw [hab] at ha
    simp at ha
    exact absurd (hc ▸ ha.symm) (by decide)
  · rw [if_neg hab] at ha
    exact hab (ha ▸ hc ▸ rfl)

theorem replaceBackslashes_id_of {s : PyStr} (h : ∀ c ∈ s, c ≠ '\\') :
    replaceBackslashes s = s := by
  induction s with
  | nil => rfl
  | cons c t ih =>
    unfold replaceBackslashes at ih ⊢
    rw [List.map_cons, if_neg (h c (List.mem_cons_self c t)),
      ih (fun x hx => h x (List.mem_cons_of_mem c hx))]

theorem mem_normalize_path {raw base : PyStr} {c : Char}
    (h : c ∈ normalize_path raw base) : c ∈ replaceBackslashes raw := by
  rw [normalize_path_def] at h
  by_cases hp : (base_fwd_of base).isPrefixOf (replaceBackslashes raw) = true
  · rw [if_pos hp] at h
    exact List.drop_subset _ _ h
  · rw [if_neg hp] at h
    cases hm : findFirstMarker MODULE_ROOT_MARKERS (replaceBackslashes raw) with
    | some idx =>
      rw [hm] at h
      exact List.drop_subset _ _ h
    | none =>
      rw [hm] at h
      exact h

theorem findFirstMarker_eq_none {ms : List PyStr} {s : PyStr}
    (h : ∀ m ∈ ms, findSub m s = none) : findFirstMarker ms s = none := by
  induction ms with
  | nil => rfl
  | cons m ms' ih =>
    unfold findFirstMarker
    rw [h m (List.mem_cons_self m ms')]
    exact ih (fun q hq => h q (List.mem_cons_of_mem m hq))

/-! ### The lexicographic order used by `sorted` -/

theorem strLeB_nil (b : PyStr) : strLeB [] b = true := rfl

theorem strLeB_cons (a : Char) (as : PyStr) (b : Char) (bs : PyStr) :
    strLeB (a :: as) (b :: bs)
      = if a < b then true else if b < a then false else strLeB as bs := rfl

theorem strLeB_total : ∀ a b : PyStr, strLeB a b = true ∨ strLeB b a = true := by
  intro a
  induction a with
  | nil => intro b; exact Or.inl (strLeB_nil b)
  | cons x as ih =>
    intro b
    cases b with
    | nil => exact Or.inr (strLeB_nil (x :: as))
    | cons y bs =>
      rw [strLeB_cons, strLeB_cons]
      rcases lt_trichotomy x y with hlt | heq | hgt
      · exact Or.inl (by rw [if_pos hlt])
      · subst heq
        rw [if_neg (lt_irrefl x), if_neg (lt_irrefl x), if_neg (lt_irrefl x),
          if_neg (lt_irrefl x)]
        exact ih bs
      · exact Or.inr (by rw [if_pos hgt])

theorem strLeB_trans :
    ∀ a b c : PyStr, strLeB a b = true → strLeB b c = true → strLeB a c = true := by
  intro a
  induction a with
  | nil => intro b c _ _; exact strLeB_nil c
  | cons x as ih =>
    intro b c hab hbc
    cases b with
    | nil => exact absurd hab (by rw [show strLeB (x :: as) [] = false from rfl]; simp)
    | cons y bs =>
      cases c with
      | nil => exact absurd hbc (by rw [show strLeB (y :: bs) [] = false from rfl]; simp)
      | cons z cs =>
        rw [strLeB_cons] at hab hbc ⊢
        rcases lt_trichotomy x y with hxy | hxy | hxy
        · rcases lt_trichotomy y z with hyz | hyz | hyz
          · rw [if_pos (lt_trans hxy hyz)]
          · subst hyz; rw [if_pos hxy]
          · rw [if_pos hyz, if_neg (not_lt.mpr (le_of_lt hyz))] at hbc
            exact absurd hbc (by simp)
        · subst hxy
          rw [if_neg (lt_irrefl x), if_neg (lt_irrefl x)] at hab
          rcases lt_trichotomy x z with hyz | hyz | hyz
          · rw [if_pos hyz]
          · subst hyz
            rw [if_neg (lt_irrefl x), if_neg (lt_irrefl x)] at hbc ⊢
            exact ih bs cs hab hbc
          · rw [if_pos hyz, if_neg (not_lt.mpr (le_of_lt hyz))] at hbc
            exact absurd hbc (by simp)
        · rw [if_pos hxy, if_neg (not_lt.mpr (le_of_lt hxy))] at hab
          exact absurd hab (by simp)

theorem strLeB_antisymm :
    ∀ a b : PyStr, strLeB a b = true → strLeB b a = true → a = b := by
  intro a
  induction a with
  | nil =>
    intro b _ hba
    cases b with
    | nil => rfl
    | cons y bs => exact absurd hba (by rw [show strLeB (y :: bs) [] = false from rfl]; simp)
  | cons x as ih =>
    intro b hab hba
    cases b with
    | nil => exact absurd hab (by rw [show strLeB (x :: as) [] = false from rfl]; simp)
    | cons y bs =>
      rw [strLeB_cons] at hab hba
      rcases lt_trichotomy x y with hxy | hxy | hxy
      · rw [if_neg (not_lt.mpr (le_of_lt hxy)), if_pos hxy] at hba
        exact absurd hba (by simp)
      · subst hxy
        rw [if_neg (lt_irrefl x), if_neg (lt_irrefl x)] at hab hba
        rw [ih bs hab hba]
      · rw [if_pos hxy, if_neg (not_lt.mpr (le_of_lt hxy))] at hab
        exact absurd hab (by simp)

instance : IsTotal PyStr strLe :=
  ⟨fun a b => (strLeB_total a b).imp id id⟩

instance : IsTrans PyStr strLe :=
  ⟨fun a b c hab hbc => strLeB_trans a b c hab hbc⟩

instance : IsAntisymm PyStr strLe :=
  ⟨fun a b hab hba => strLeB_antisymm a b hab hba⟩

/-! ### Lemmas on the fingerprint dictionaries and the diff -/

theorem mem_of_dictGet?_eq_some {m : FindingSet} {k : PyStr} {v : Issue}
    (h : dictGet? m k = some v) : (k, v) ∈ m := by
  unfold dictGet? at h
  rcases Option.map_eq_some'.mp h with ⟨q, hq, hv⟩
  have hqm : q ∈ m := List.mem_of_find?_eq_some hq
  have hk : q.1 = k := by
    have hp := List.find?_some hq
    simpa using hp
  have hkv : q = (k, v) := Prod.ext hk hv
  exact hkv ▸ hqm

theorem dictGet?_eq_some_iff {m : FindingSet} {k : PyStr} {v : Issue}
    (hn : (dictKeys m).Nodup) : dictGet? m k = some v ↔ (k, v) ∈ m := by
  constructor
  · exact mem_of_dictGet?_eq_some
  · intro hm
    unfold dictGet?
    cases hf : m.find? (fun p => decide (p.1 = k)) with
    | none =>
      exact absurd (decide_eq_true (show ((k, v).1 = k) from rfl))
        (List.find?_eq_none.mp hf (k, v) hm)
    | some q =>
      have hqm : q ∈ m := List.mem_of_find?_eq_some hf
      have hk : q.1 = k := by
        have hp := List.find?_some hf
        simpa using hp
      have hq : q = (k, v) :=
        List.inj_on_of_nodup_map hn hqm hm (by rw [hk])
      rw [hq]
      rfl

theorem dictKeys_nodup_of_perm {m m' : FindingSet} (hp : m.Perm m')
    (hn : (dictKeys m).Nodup) : (dictKeys m').Nodup :=
  (hp.map Prod.fst).nodup hn

theorem dictGet?_perm {m m' : FindingSet} (hp : m.Perm m')
    (hn : (dictKeys m).Nodup) (k : PyStr) : dictGet? m k = dictGet? m' k := by
  cases hc : dictGet? m k with
  | some v =>
    have hm : (k, v) ∈ m' := hp.mem_iff.mp (mem_of_dictGet?_eq_some hc)
    exact ((dictGet?_eq_some_iff (dictKeys_nodup_of_perm hp hn)).mpr hm).symm
  | none =>
    unfold dictGet? at hc ⊢
    cases hf : m.find? (fun p => decide (p.1 = k)) with
    | some q => rw [hf] at hc; exact absurd hc (by simp)
    | none =>
      cases hf' : m'.find? (fun p => decide (p.1 = k)) with
      | none => rfl
      | some q =>
        have hqm : q ∈ m := hp.mem_iff.mpr (List.mem_of_find?_eq_some hf')
        exact absurd (List.find?_some hf') (List.find?_eq_none.mp hf q hqm)

theorem mem_new_fps_iff {cur base : FindingSet} {fp : PyStr} :
    fp ∈ new_fps cur base ↔ fp ∈ dictKeys cur ∧ fp ∉ dictKeys base := by
  unfold new_fps dictMem
  rw [List.mem_filter]
  simp

theorem mem_resolved_fps_iff {cur base : FindingSet} {fp : PyStr} :
    fp ∈ resolved_fps cur base ↔ fp ∈ dictKeys base ∧ fp ∉ dictKeys cur := by
  unfold resolved_fps dictMem
  rw [List.mem_filter]
  simp

theorem mem_sorted_new_fps_iff {cur base : FindingSet} {fp : PyStr} :
    fp ∈ sorted_new_fps cur base ↔ fp ∈ dictKeys cur ∧ fp ∉ dictKeys base := by
  unfold sorted_new_fps pySorted
  rw [List.mem_insertionSort]
  exact mem_new_fps_iff

theorem mem_sorted_resolved_fps_iff {cur base : FindingSet} {fp : PyStr} :
    fp ∈ sorted_resolved_fps cur base ↔ fp ∈ dictKeys base ∧ fp ∉ dictKeys cur := by
  unfold sorted_resolved_fps pySorted
  rw [List.mem_insertionSort]
  exact mem_resolved_fps_iff

theorem sorted_new_fps_sorted (cur base : FindingSet) :
    List.Sorted strLe (sorted_new_fps cur base) :=
  List.sorted_insertionSort strLe (new_fps cur base)

theorem sorted_resolved_fps_sorted (cur base : FindingSet) :
    List.Sorted strLe (sorted_resolved_fps cur base) :=
  List.sorted_insertionSort strLe (resolved_fps cur base)

theorem new_fps_perm {cur cur' base base' : FindingSet} (hc : cur.Perm cur')
    (hb : base.Perm base') : (new_fps cur base).Perm (new_fps cur' base') := by
  unfold new_fps
  have h1 : ((dictKeys cur).filter (fun fp => !(dictMem base fp))).Perm
      ((dictKeys cur').filter (fun fp => !(dictMem base fp))) :=
    (hc.map Prod.fst).filter _
  have h2 : (dictKeys cur').filter (fun fp => !(dictMem base fp))
      = (dictKeys cur').filter (fun fp => !(dictMem base' fp)) := by
    apply List.filter_congr
    intro fp _
    have : dictMem base fp = dictMem base' fp := by
      unfold dictMem
      exact decide_eq_decide.mpr (hb.map Prod.fst).mem_iff
    rw [this]
  rw [← h2]
  exact h1

theorem sorted_new_fps_perm_eq {cur cur' base base' : FindingSet} (hc : cur.Perm cur')
    (hb : base.Perm base') : sorted_new_fps cur base = sorted_new_fps cur' base' := by
  apply List.eq_of_perm_of_sorted _ (sorted_new_fps_sorted cur base)
    (sorted_new_fps_sorted cur' base')
  unfold sorted_new_fps pySorted
  exact (List.perm_insertionSort strLe _).trans
    ((new_fps_perm hc hb).trans (List.perm_insertionSort strLe _).symm)

theorem resolved_fps_perm {cur cur' base base' : FindingSet} (hc : cur.Perm cur')
    (hb : base.Perm base') : (resolved_fps cur base).Perm (resolved_fps cur' base') := by
  unfold resolved_fps
  have h1 : ((dictKeys base).filter (fun fp => !(dictMem cur fp))).Perm
      ((dictKeys base').filter (fun fp => !(dictMem cur fp))) :=
    (hb.map Prod.fst).filter _
  have h2 : (dictKeys base').filter (fun fp => !(dictMem cur fp))
      = (dictKeys base').filter (fun fp => !(dictMem cur' fp)) := by
    apply List.filter_congr
    intro fp _
    have : dictMem cur fp = dictMem cur' fp := by
      unfold dictMem
      exact decide_eq_decide.mpr (hc.map Prod.fst).mem_iff
    rw [this]
  rw [← h2]
  exact h1

theorem sorted_resolved_fps_perm_eq {cur cur' base base' : FindingSet}
    (hc : cur.Perm cur') (hb : base.Perm base') :
    sorted_resolved_fps cur base = sorted_resolved_fps cur' base' := by
  apply List.eq_of_perm_of_sorted _ (sorted_resolved_fps_sorted cur base)
    (sorted_resolved_fps_sorted cur' base')
  unfold sorted_resolved_fps pySorted
  exact (List.perm_insertionSort strLe _).trans
    ((resolved_fps_perm hc hb).trans (List.perm_insertionSort strLe _).symm)

theorem new_issues_perm_eq {cur cur' base base' : FindingSet} (hc : cur.Perm cur')
    (hb : base.Perm base') (hn : (dictKeys cur).Nodup) :
    new_issues cur base = new_issues cur' base' := by
  unfold new_issues
  rw [sorted_new_fps_perm_eq hc hb]
  have : dictGet? cur = dictGet? cur' := funext (fun k => dictGet?_perm hc hn k)
  rw [this]

theorem resolved_issues_perm_eq {cur cur' base base' : FindingSet} (hc : cur.Perm cur')
    (hb : base.Perm base') (hn : (dictKeys base).Nodup) :
    resolved_issues cur base = resolved_issues cur' base' := by
  unfold resolved_issues
  rw [sorted_resolved_fps_perm_eq hc hb]
  have : dictGet? base = dictGet? base' := funext (fun k => dictGet?_perm hb hn k)
  rw [this]

theorem mem_new_issues_iff {cur base : FindingSet} {i : Issue}
    (hn : (dictKeys cur).Nodup) :
    i ∈ new_issues cur base ↔ ∃ fp, (fp, i) ∈ cur ∧ fp ∉ dictKeys base := by
  unfold new_issues
  rw [List.mem_filterMap]
  constructor
  · rintro ⟨fp, hfp, hget⟩
    exact ⟨fp, mem_of_dictGet?_eq_some hget, (mem_sorted_new_fps_iff.mp hfp).2⟩
  · rintro ⟨fp, hmem, hnb⟩
    refine ⟨fp, ?_, (dictGet?_eq_some_iff hn).mpr hmem⟩
    exact mem_sorted_new_fps_iff.mpr ⟨List.mem_map.mpr ⟨(fp, i), hmem, rfl⟩, hnb⟩

theorem mem_resolved_issues_iff {cur base : FindingSet} {i : Issue}
    (hn : (dictKeys base).Nodup) :
    i ∈ resolved_issues cur base ↔ ∃ fp, (fp, i) ∈ base ∧ fp ∉ dictKeys cur := by
  unfold resolved_issues
  rw [List.mem_filterMap]
  constructor
  · rintro ⟨fp, hfp, hget⟩
    exact ⟨fp, mem_of_dictGet?_eq_some hget, (mem_sorted_resolved_fps_iff.mp hfp).2⟩
  · rintro ⟨fp, hmem, hnb⟩
    refine ⟨fp, ?_, (dictGet?_eq_some_iff hn).mpr hmem⟩
    exact mem_sorted_resolved_fps_iff.mpr ⟨List.mem_map.mpr ⟨(fp, i), hmem, rfl⟩, hnb⟩

theorem new_issues_eq_nil_of_same_keys {cur base : FindingSet}
    (h : ∀ fp, fp ∈ dictKeys cur ↔ fp ∈ dictKeys base) :
    new_issues cur base = [] ∧ resolved_issues cur base = [] := by
  have h1 : new_fps cur base = [] := by
    unfold new_fps
    rw [List.filter_eq_nil_iff]
    intro fp hfp
    simp only [dictMem, Bool.not_eq_true', decide_eq_false_iff_not, not_not]
    exact (h fp).mp hfp
  have h2 : resolved_fps cur base = [] := by
    unfold resolved_fps
    rw [List.filter_eq_nil_iff]
    intro fp hfp
    simp only [dictMem, Bool.not_eq_true', decide_eq_false_iff_not, not_not]
    exact (h fp).mpr hfp
  constructor
  · unfold new_issues sorted_new_fps pySorted
    rw [h1]
    rfl
  · unfold resolved_issues sorted_resolved_fps pySorted
    rw [h2]
    rfl

/-! ### Lemmas on the loader and the main pipeline -/

theorem load_findings_parsed (d : Doc) (base : PyStr) :
    load_findings (RawInput.parsed d) base
      = Except.ok (loadedFps d base, d.Stats.getD emptyStats) := rfl

theorem mem_dictInsert_value {m : FindingSet} {k' : PyStr} {v' : Issue}
    {q : PyStr × Issue} (h : q ∈ dictInsert m k' v') : q ∈ m ∨ q.2 = v' := by
  unfold dictInsert at h
  by_cases hb : m.any (fun p => p.1 == k') = true
  · rw [if_pos hb] at h
    rcases List.mem_map.mp h with ⟨p, hp, hpq⟩
    by_cases hpk : p.1 = k'
    · rw [if_pos hpk] at hpq
      right
      rw [← hpq]
    · rw [if_neg hpk] at hpq
      left
      exact hpq ▸ hp
  · rw [if_neg hb] at h
    rcases List.mem_append.mp h with h1 | h1
    · left
      exact h1
    · right
      rw [List.mem_singleton] at h1
      rw [h1]

theorem mem_foldl_dictInsert {f : Issue → PyStr} :
    ∀ (l : List Issue) (m0 : FindingSet) (q : PyStr × Issue),
      q ∈ l.foldl (fun m issue => dictInsert m (f issue) issue) m0 →
      q ∈ m0 ∨ q.2 ∈ l := by
  intro l
  induction l with
  | nil =>
    intro m0 q h
    left
    simpa using h
  | cons i r ih =>
    intro m0 q h
    rw [List.foldl_cons] at h
    rcases ih _ q h with h1 | h1
    · rcases mem_dictInsert_value h1 with h2 | h2
      · left
        exact h2
      · right
        rw [h2]
        exact List.mem_cons_self i r
    · right
      exact List.mem_cons_of_mem i h1

theorem loadedFps_values {d : Doc} {base : PyStr} :
    ∀ q ∈ loadedFps d base, q.2.nosec ≠ some true := by
  intro q hq
  unfold loadedFps at hq
  rcases mem_foldl_dictInsert _ _ q hq with h1 | h1
  · exact absurd h1 (List.not_mem_nil q)
  · have hpred := (List.mem_filter.mp h1).2
    intro hc
    rw [hc] at hpred
    simp at hpred

theorem load_findings_values {inp : RawInput} {base : PyStr} {fps : FindingSet}
    {st : Stats} (h : load_findings inp base = Except.ok (fps, st)) :
    ∀ q ∈ fps, q.2.nosec ≠ some true := by
  cases inp with
  | missing => exact absurd h (by simp [load_findings])
  | malformed => exact absurd h (by simp [load_findings])
  | parsed d =>
    rw [load_findings_parsed] at h
    have hfps : loadedFps d base = fps := by
      have := Except.ok.inj h
      exact congrArg Prod.fst this
    rw [← hfps]
    exact loadedFps_values

theorem runMain_eq_ok {results baseline : RawInput} {base : PyStr} {out : RunResult}
    (h : runMain results baseline base = Except.ok out) :
    ∃ cur stc bs sts, load_findings results base = Except.ok (cur, stc) ∧
      load_findings baseline base = Except.ok (bs, sts) ∧
      out = ⟨new_issues cur bs, resolved_issues cur bs,
        exitStatus (new_issues cur bs) (resolved_issues cur bs)⟩ := by
  unfold runMain at h
  cases hres : load_findings results base with
  | error e =>
    rw [hres] at h
    exact absurd h (by simp [Bind.bind, Except.bind])
  | ok pc =>
    obtain ⟨cur, stc⟩ := pc
    rw [hres] at h
    cases hbl : load_findings baseline base with
    | error e =>
      rw [hbl] at h
      exact absurd h (by simp [Bind.bind, Except.bind])
    | ok pb =>
      obtain ⟨bs, sts⟩ := pb
      rw [hbl] at h
      refine ⟨cur, stc, bs, sts, rfl, rfl, ?_⟩
      simp only [Bind.bind, Except.bind, Pure.pure, Except.pure] at h
      exact (Except.ok.inj h).symm

theorem runMain_parsed_parsed (d d' : Doc) (base : PyStr) :
    runMain (RawInput.parsed d) (RawInput.parsed d') base
      = Except.ok ⟨new_issues (loadedFps d base) (loadedFps d' base),
          resolved_issues (loadedFps d base) (loadedFps d' base),
          exitStatus (new_issues (loadedFps d base) (loadedFps d' base))
            (resolved_issues (loadedFps d base) (loadedFps d' base))⟩ := rfl

theorem exitStatus_eq_zero_iff (n r : List Issue) :
    exitStatus n r = 0 ↔ (n = [] ∧ ∀ i ∈ r, i.rule_id ≠ none) := by
  unfold exitStatus
  by_cases hr : r.any (fun i => i.rule_id.isNone) = true
  · rw [if_pos hr]
    simp only [List.any_eq_true, Option.isNone_iff_eq_none] at hr
    obtain ⟨i, hi, hnone⟩ := hr
    constructor
    · intro hc
      exact absurd hc (by decide)
    · rintro ⟨-, hall⟩
      exact absurd hnone (hall i hi)
  · rw [if_neg hr]
    have hall : ∀ i ∈ r, i.rule_id ≠ none := by
      intro i hi
      simp only [List.any_eq_true, Option.isNone_iff_eq_none, not_exists] at hr
      intro hc
      exact hr i ⟨hi, hc⟩
    by_cases hn : n = []
    · rw [if_pos hn]
      exact ⟨fun _ => ⟨hn, hall⟩, fun _ => rfl⟩
    · rw [if_neg hn]
      constructor
      · intro hc
        exact absurd hc (by decide)
      · rintro ⟨hc, -⟩
        exact absurd hc hn

theorem exitStatus_eq_one_iff (n r : List Issue) :
    exitStatus n r = 1 ↔ (n ≠ [] ∨ ∃ i ∈ r, i.rule_id = none) := by
  unfold exitStatus
  by_cases hr : r.any (fun i => i.rule_id.isNone) = true
  · rw [if_pos hr]
    simp only [List.any_eq_true, Option.isNone_iff_eq_none] at hr
    exact ⟨fun _ => Or.inr hr, fun _ => rfl⟩
  · rw [if_neg hr]
    simp only [List.any_eq_true, Option.isNone_iff_eq_none, not_exists] at hr
    by_cases hn : n = []
    · rw [if_pos hn]
      constructor
      · intro hc
        exact absurd hc (by decide)
      · rintro (hc | ⟨i, hi, hnone⟩)
        · exact absurd hn hc
        · exact absurd ⟨hi, hnone⟩ (hr i)
    · rw [if_neg hn]
      exact ⟨fun _ => Or.inl hn, fun _ => rfl⟩

/-! ### Claim C3 -/

/-- C3: the spec expects anchor `"foo() | bar()"` for the snippet
`"10:   foo()\n11: \n12:   bar()"`. The code instead yields `"foo() | 11:"`:
the numbered blank line `"11: "` is stripped to `"11:"`, which is neither
blank nor contains `": "`, so the residual line-number prefix survives into
the anchor — contradicting the function docstring ("first two meaningful
code lines, with gosec line-number prefixes stripped"). This theorem
evaluates the code at the failing input. -/
theorem C3_blank_line_anchor :
    anchorOf (pystr "10:   foo()\n11: \n12:   bar()") = pystr "foo() | 11:"
      ∧ anchorOf (pystr "10:   foo()\n11: \n12:   bar()") ≠ pystr "foo() | bar()" :=
  ⟨by decide, by decide⟩

/-! ### Claim C4 -/

/-- C4 counterexample: the claim says a prefix is stripped only when it is
digits-colon-space, so `"case: foo"` should be kept unchanged; the code
strips everything up to the first `": "` regardless, yielding `"foo"`. -/
theorem C4_counterexample :
    anchorOf (pystr "case: foo") = pystr "foo"
      ∧ anchorOf (pystr "case: foo") ≠ pystr "case: foo" :=
  ⟨by decide, by decide⟩

/-- The amended per-line cleaning: whenever `": "` occurs anywhere in the
stripped line — digit prefix or not — everything up to and including its
first occurrence is removed and the remainder re-stripped; otherwise the
stripped line is kept as is. -/
def stripThroughSep (s : PyStr) : PyStr :=
  match findSub sepCS s with
  | some i => pyStrip (s.drop (i + 2))
  | none => s

/-- The amended collection loop: skip blank lines, collect at most `n`
cleaned lines. -/
def collectCleaned : Nat → List PyStr → List PyStr
  | _, [] => []
  | 0, _ :: _ => []
  | Nat.succ n, raw :: rest =>
    let s := pyStrip raw
    if s = [] then collectCleaned (Nat.succ n) rest
    else stripThroughSep s :: collectCleaned n rest

/-- The anchor as described by the amended claim: blank lines skipped, each
remaining line cleaned through the first `": "` occurrence (numeric or not),
the first two cleaned lines joined with the fixed `" | "` delimiter. -/
def anchorSpecAmended (code : PyStr) : PyStr :=
  pyJoin (pystr " | ") (collectCleaned 2 (pySplitlines code))

theorem cleanLine_eq (raw : PyStr) :
    cleanLine raw = if pyStrip raw = [] then none
      else some (stripThroughSep (pyStrip raw)) := by
  show (if pyStrip raw = [] then none
    else match findSub sepCS (pyStrip raw) with
    | some i => some (pyStrip ((pyStrip raw).drop (i + 2)))
    | none => some (pyStrip raw))
    = if pyStrip raw = [] then none else some (stripThroughSep (pyStrip raw))
  by_cases h : pyStrip raw = []
  · rw [if_pos h, if_pos h]
  · rw [if_neg h, if_neg h]
    unfold stripThroughSep
    cases hf : findSub sepCS (pyStrip raw) with
    | some i => rfl
    | none => rfl

theorem take_filterMap_cleanLine :
    ∀ (ls : List PyStr) (n : Nat),
      (ls.filterMap cleanLine).take n = collectCleaned n ls := by
  intro ls
  induction ls with
  | nil =>
    intro n
    cases n with
    | zero => rfl
    | succ m => rfl
  | cons raw rest ih =>
    intro n
    rw [List.filterMap_cons, cleanLine_eq raw]
    by_cases h : pyStrip raw = []
    · rw [if_pos h]
      cases n with
      | zero => rfl
      | succ m =>
        show (List.filterMap cleanLine rest).take (m + 1)
          = if pyStrip raw = [] then collectCleaned (m + 1) rest
            else stripThroughSep (pyStrip raw) :: collectCleaned m rest
        rw [if_pos h]
        exact ih (m + 1)
    · rw [if_neg h]
      cases n with
      | zero => rfl
      | succ m =>
        rw [List.take_succ_cons]
        show stripThroughSep (pyStrip raw) :: (List.filterMap cleanLine rest).take m
          = if pyStrip raw = [] then collectCleaned (m + 1) rest
            else stripThroughSep (pyStrip raw) :: collectCleaned m rest
        rw [if_neg h, ih m]

/-- C4 amended: in anchor extraction, a non-blank line is cleaned by
removing everything up to and including the first occurrence of `": "`
whenever that separator occurs anywhere in the (stripped) line — whether or
not the text before it is a digit sequence — and is kept unchanged
otherwise; at most the first two cleaned lines are collected and joined
with the fixed delimiter. Proved as a refinement: the code's anchor equals
the amended specification's anchor on every snippet. -/
theorem C4_amended_anchor : ∀ code : PyStr, anchorOf code = anchorSpecAmended code := by
  intro code
  unfold anchorOf anchorSpecAmended
  rw [take_filterMap_cleanLine]

/-! ### Claim C9 -/

/-- A document with the `Issues` key absent but a nonzero `Stats` mapping. -/
def C9_doc : Doc := ⟨none, some ⟨some 7, none, none⟩⟩

/-- C9 counterexample: loading a document with no `Issues` key does not
produce zero-valued Stats fields — the `Stats` mapping is passed through
unchanged (here `files = 7`), and when `Stats` is also absent its fields
are missing (rendered as `"?"`), not zero. -/
theorem C9_counterexample :
    load_findings (RawInput.parsed C9_doc) (pystr ".")
        = Except.ok ([], ⟨some 7, none, none⟩)
      ∧ (⟨some 7, none, none⟩ : Stats).files ≠ some 0 :=
  ⟨rfl, by decide⟩

/-- C9 amended: loading a document whose top-level `Issues` key is absent
does not fail: it returns an empty FindingSet, and the `Stats` mapping of
the document unchanged — the empty mapping (all fields absent, not zero)
when `Stats` is missing. -/
theorem C9_amended_no_issues_key :
    ∀ (d : Doc) (base : PyStr), d.Issues = none →
      load_findings (RawInput.parsed d) base
        = Except.ok ([], d.Stats.getD emptyStats) := by
  intro d base h
  rw [load_findings_parsed]
  have hIss : docIssues d = [] := by
    unfold docIssues
    rw [h]
  have hfps : loadedFps d base = [] := by
    show ((docIssues d).filter (fun i => !(i.nosec.getD false))).foldl
      (fun m issue => dictInsert m (fingerprint issue base) issue) [] = []
    rw [hIss]
    rfl
  rw [hfps]

theorem C9_amended_no_issues_key_witness :
    C9_doc.Issues = none
      ∧ load_findings (RawInput.parsed C9_doc) (pystr "/r")
          = Except.ok ([], C9_doc.Stats.getD emptyStats) :=
  ⟨rfl, C9_amended_no_issues_key C9_doc (pystr "/r") rfl⟩

/-! ### Claim C10 -/

/-- C10: a document whose `Issues` key is present but holds `null` (or the
falsy empty list) loads exactly like a document with no `Issues` key at
all: an empty finding mapping, no error. -/
theorem C10_falsy_issues :
    ∀ (st : Option Stats) (base : PyStr),
      load_findings (RawInput.parsed ⟨some none, st⟩) base
          = load_findings (RawInput.parsed ⟨none, st⟩) base
      ∧ load_findings (RawInput.parsed ⟨some (some []), st⟩) base
          = load_findings (RawInput.parsed ⟨none, st⟩) base
      ∧ load_findings (RawInput.parsed ⟨none, st⟩) base
          = Except.ok ([], st.getD emptyStats) := by
  intro st base
  exact ⟨rfl, rfl, rfl⟩

/-! ### Claim C7 -/

/-- C7: loading fails with a `LoadError` exactly when the input document is
missing/unreadable or not valid JSON; such a failure is fatal for the whole
comparison — `runMain` returns an error and no diff (no `RunResult`) is
produced when either input fails to load. -/
theorem C7_load_error :
    (∀ (inp : RawInput) (base : PyStr),
      (∃ e, load_findings inp base = Except.error e)
        ↔ (inp = RawInput.missing ∨ inp = RawInput.malformed))
    ∧ (∀ (results baseline : RawInput) (base : PyStr),
        (results = RawInput.missing ∨ results = RawInput.malformed
          ∨ baseline = RawInput.missing ∨ baseline = RawInput.malformed) →
        ∃ e, runMain results baseline base = Except.error e) := by
  constructor
  · intro inp base
    constructor
    · rintro ⟨e, he⟩
      cases inp with
      | missing => exact Or.inl rfl
      | malformed => exact Or.inr rfl
      | parsed d =>
        rw [load_findings_parsed] at he
        exact absurd he (by simp)
    · rintro (rfl | rfl)
      · exact ⟨LoadError.loadError, rfl⟩
      · exact ⟨LoadError.loadError, rfl⟩
  · intro results baseline base h
    rcases h with rfl | rfl | rfl | rfl
    · exact ⟨LoadError.loadError, rfl⟩
    · exact ⟨LoadError.loadError, rfl⟩
    · cases results with
      | missing => exact ⟨LoadError.loadError, rfl⟩
      | malformed => exact ⟨LoadError.loadError, rfl⟩
      | parsed d => exact ⟨LoadError.loadError, rfl⟩
    · cases results with
      | missing => exact ⟨LoadError.loadError, rfl⟩
      | malformed => exact ⟨LoadError.loadError, rfl⟩
      | parsed d => exact ⟨LoadError.loadError, rfl⟩

theorem C7_load_error_witness :
    (RawInput.missing = RawInput.missing ∨ RawInput.missing = RawInput.malformed)
      ∧ ∃ e, load_findings RawInput.missing (pystr ".") = Except.error e :=
  ⟨Or.inl rfl, (C7_load_error.1 RawInput.missing (pystr ".")).mpr (Or.inl rfl)⟩

/-! ### Claim C5 -/

/-- C5 counterexample: path normalization is not idempotent. A first pass
can expose a later module-root marker that a second pass then strips
(`"/x/internal/cmd/a.go"` → `"internal/cmd/a.go"` → `"cmd/a.go"`), and a
first pass can expose the base-directory prefix again
(`"/b//b/x.go"` → `"/b/x.go"` → `"x.go"`). -/
theorem C5_counterexample :
    normalize_path (normalize_path (pystr "/x/internal/cmd/a.go") (pystr "/b")) (pystr "/b")
        ≠ normalize_path (pystr "/x/internal/cmd/a.go") (pystr "/b")
      ∧ normalize_path (normalize_path (pystr "/b//b/x.go") (pystr "/b")) (pystr "/b")
        ≠ normalize_path (pystr "/b//b/x.go") (pystr "/b") :=
  ⟨by decide, by decide⟩

/-- C5 amended: normalization is idempotent exactly on its fixed points —
for every path whose normalized form neither begins with the normalized
base-directory prefix nor contains any module-root marker, a second
normalization returns it unchanged; otherwise a second application strips
further. -/
theorem C5_amended_normalize_idem :
    ∀ p root : PyStr,
      (base_fwd_of root).isPrefixOf (normalize_path p root) = false →
      (∀ m ∈ MODULE_ROOT_MARKERS, findSub m (normalize_path p root) = none) →
      normalize_path (normalize_path p root) root = normalize_path p root := by
  intro p root hpre hmk
  have hrep : replaceBackslashes (normalize_path p root) = normalize_path p root :=
    replaceBackslashes_id_of
      (fun c hc => mem_replaceBackslashes_ne_bs (mem_normalize_path hc))
  rw [normalize_path_def, hrep, if_neg (by rw [hpre]; simp),
    findFirstMarker_eq_none hmk]

theorem C5_amended_normalize_idem_witness :
    ((base_fwd_of (pystr "/r")).isPrefixOf (normalize_path (pystr "a/b.go") (pystr "/r")) = false
      ∧ ∀ m ∈ MODULE_ROOT_MARKERS, findSub m (normalize_path (pystr "a/b.go") (pystr "/r")) = none)
    ∧ normalize_path (normalize_path (pystr "a/b.go") (pystr "/r")) (pystr "/r")
        = normalize_path (pystr "a/b.go") (pystr "/r") :=
  ⟨⟨by decide, by decide⟩,
   C5_amended_normalize_idem (pystr "a/b.go") (pystr "/r") (by decide) (by decide)⟩

/-! ### Claim C8 -/

/-- C8: a finding whose `nosec` flag is `true` in the input document is
excluded before fingerprinting: no value stored in a loaded FindingSet is
suppressed, and consequently no suppressed finding ever appears in the new
or resolved output lists of any successful run. -/
theorem C8_suppressed_excluded :
    (∀ (inp : RawInput) (base : PyStr) (fps : FindingSet) (st : Stats),
      load_findings inp base = Except.ok (fps, st) →
      ∀ q ∈ fps, q.2.nosec ≠ some true)
    ∧ (∀ (results baseline : RawInput) (base : PyStr) (out : RunResult),
        runMain results baseline base = Except.ok out →
        ∀ i : Issue, (i ∈ out.new_issues ∨ i ∈ out.resolved_issues) →
          i.nosec ≠ some true) := by
  constructor
  · intro inp base fps st h
    exact load_findings_values h
  · intro results baseline base out h i hi
    obtain ⟨cur, stc, bs, sts, hres, hbl, hout⟩ := runMain_eq_ok h
    subst hout
    rcases hi with hi | hi
    · have hi' : i ∈ new_issues cur bs := hi
      unfold new_issues at hi'
      obtain ⟨fp, _, hget⟩ := List.mem_filterMap.mp hi'
      exact load_findings_values hres (fp, i) (mem_of_dictGet?_eq_some hget)
    · have hi' : i ∈ resolved_issues cur bs := hi
      unfold resolved_issues at hi'
      obtain ⟨fp, _, hget⟩ := List.mem_filterMap.mp hi'
      exact load_findings_values hbl (fp, i) (mem_of_dictGet?_eq_some hget)

/-- A suppressed finding (`nosec = true`). -/
def C8_supp : Issue :=
  ⟨some (pystr "G101"), some (pystr "s.go"), none, some (pystr "hardcoded"),
   some (pystr "1: x"), some true⟩

/-- An active finding in the same document. -/
def C8_act : Issue :=
  ⟨some (pystr "G204"), some (pystr "a.go"), none, some (pystr "subprocess"),
   some (pystr "2: y"), none⟩

def C8_doc : Doc := ⟨some (some [C8_supp, C8_act]), none⟩

def C8_fps : FindingSet := loadedFps C8_doc (pystr ".")

theorem C8_suppressed_excluded_witness :
    load_findings (RawInput.parsed C8_doc) (pystr ".") = Except.ok (C8_fps, emptyStats)
      ∧ ∀ q ∈ C8_fps, q.2.nosec ≠ some true :=
  ⟨rfl,
   C8_suppressed_excluded.1 (RawInput.parsed C8_doc) (pystr ".") C8_fps emptyStats rfl⟩

/-! ### Claim C6 -/

/-- A baseline finding with no rule_id key: it loads and fingerprints fine
(`fingerprint` uses `.get`), but the resolved listing at line 189 indexes
`i["rule_id"]` directly and raises `KeyError` on it. -/
def C6_noRule : Issue :=
  ⟨none, some (pystr "x.go"), none, some (pystr "d"), some (pystr "1: x"), none⟩

def C6_baseDoc : Doc := ⟨some (some [C6_noRule]), none⟩

def C6_curDoc : Doc := ⟨none, none⟩

/-- C6 counterexample: a baseline finding lacking rule_id resolves away, so
the run has zero new findings, yet the process exits with status 1 — the
resolved listing (line 189) crashes on `i["rule_id"]` before the exit
decision at line 191. The claim's "exit code 0 exactly when the new set is
empty" is therefore false: here new_issues = [] and exit status = 1. -/
theorem C6_counterexample :
    runMain (RawInput.parsed C6_curDoc) (RawInput.parsed C6_baseDoc) (pystr ".")
        = Except.ok ⟨[], [C6_noRule], 1⟩
      ∧ ([] : List Issue) = [] ∧ (1 : Nat) ≠ 0 :=
  ⟨rfl, rfl, by decide⟩

/-- C6 amended: on every successful run the process exit status is 0 exactly
when the computed list of new findings is empty AND every resolved finding
carries a rule_id (a resolved finding without one crashes the process to
status 1 in the summary listing, before the exit decision); the status is 1
exactly when there are new findings or a resolved finding lacks rule_id.
Finding sets with the same fingerprints still diff to empty new and resolved
lists, and comparing a document against itself exits 0 with no new and no
resolved findings. -/
theorem C6_amended_exit_code :
    (∀ (results baseline : RawInput) (base : PyStr) (out : RunResult),
      runMain results baseline base = Except.ok out →
      ((out.exit_code = 0 ↔ (out.new_issues = []
          ∧ ∀ i ∈ out.resolved_issues, i.rule_id ≠ none))
        ∧ (out.exit_code = 1 ↔ (out.new_issues ≠ []
          ∨ ∃ i ∈ out.resolved_issues, i.rule_id = none))))
    ∧ (∀ cur base : FindingSet, (∀ fp, fp ∈ dictKeys cur ↔ fp ∈ dictKeys base) →
        new_issues cur base = [] ∧ resolved_issues cur base = [])
    ∧ (∀ (d : Doc) (base : PyStr),
        runMain (RawInput.parsed d) (RawInput.parsed d) base
          = Except.ok ⟨[], [], 0⟩) := by
  refine ⟨?_, fun cur base h => new_issues_eq_nil_of_same_keys h, ?_⟩
  · intro results baseline base out h
    obtain ⟨cur, stc, bs, sts, _, _, hout⟩ := runMain_eq_ok h
    subst hout
    exact ⟨exitStatus_eq_zero_iff (new_issues cur bs) (resolved_issues cur bs),
      exitStatus_eq_one_iff (new_issues cur bs) (resolved_issues cur bs)⟩
  · intro d base
    rw [runMain_parsed_parsed]
    have h := new_issues_eq_nil_of_same_keys
      (show ∀ fp, fp ∈ dictKeys (loadedFps d base) ↔ fp ∈ dictKeys (loadedFps d base)
        from fun fp => Iff.rfl)
    rw [h.1, h.2]
    rfl

theorem C6_amended_exit_code_witness :
    runMain (RawInput.parsed C6_curDoc) (RawInput.parsed C6_baseDoc) (pystr ".")
        = Except.ok ⟨[], [C6_noRule], 1⟩
      ∧ ((RunResult.mk [] [C6_noRule] 1).exit_code = 1
          ↔ ((RunResult.mk [] [C6_noRule] 1).new_issues ≠ []
            ∨ ∃ i ∈ (RunResult.mk [] [C6_noRule] 1).resolved_issues, i.rule_id = none)) :=
  ⟨rfl,
   (C6_amended_exit_code.1 (RawInput.parsed C6_curDoc) (RawInput.parsed C6_baseDoc)
     (pystr ".") ⟨[], [C6_noRule], 1⟩ rfl).2⟩

/-! ### Claim C2 -/

def C2_A : Issue :=
  ⟨some (pystr "G101"), some (pystr "a.go"), none, some (pystr "da"),
   some (pystr "1: aa()"), none⟩

def C2_B : Issue :=
  ⟨some (pystr "G102"), some (pystr "b.go"), none, some (pystr "db"),
   some (pystr "2: bb()"), none⟩

def C2_C : Issue :=
  ⟨some (pystr "G103"), some (pystr "c.go"), none, some (pystr "dc"),
   some (pystr "3: cc()"), none⟩

def C2_dot : PyStr := pystr "."

def C2_baseline : FindingSet :=
  [(fingerprint C2_A C2_dot, C2_A), (fingerprint C2_B C2_dot, C2_B)]

def C2_current : FindingSet :=
  [(fingerprint C2_B C2_dot, C2_B), (fingerprint C2_C C2_dot, C2_C)]

/-- C2: the diff yields as new exactly the findings whose fingerprint is in
current but not baseline, and as resolved exactly those in baseline but not
current; both fingerprint lists are sorted ascending by the lexicographic
string order, and the output lists are invariant under permuting either
input map (determinism w.r.t. iteration order); in particular
baseline = {A, B} and current = {B, C} give new = [C], resolved = [A]. -/
theorem C2_diff_correctness :
    (∀ cur base : FindingSet,
      (List.Sorted strLe (sorted_new_fps cur base)
        ∧ List.Sorted strLe (sorted_resolved_fps cur base))
      ∧ (∀ fp, fp ∈ sorted_new_fps cur base ↔ fp ∈ dictKeys cur ∧ fp ∉ dictKeys base)
      ∧ (∀ fp, fp ∈ sorted_resolved_fps cur base ↔ fp ∈ dictKeys base ∧ fp ∉ dictKeys cur)
      ∧ ((dictKeys cur).Nodup →
          ∀ i, i ∈ new_issues cur base ↔ ∃ fp, (fp, i) ∈ cur ∧ fp ∉ dictKeys base)
      ∧ ((dictKeys base).Nodup →
          ∀ i, i ∈ resolved_issues cur base ↔ ∃ fp, (fp, i) ∈ base ∧ fp ∉ dictKeys cur)
      ∧ (∀ cur' base', cur.Perm cur' → base.Perm base' → (dictKeys cur).Nodup →
          (dictKeys base).Nodup →
          new_issues cur base = new_issues cur' base'
            ∧ resolved_issues cur base = resolved_issues cur' base'))
    ∧ new_issues C2_current C2_baseline = [C2_C]
    ∧ resolved_issues C2_current C2_baseline = [C2_A] := by
  refine ⟨fun cur base =>
    ⟨⟨sorted_new_fps_sorted cur base, sorted_resolved_fps_sorted cur base⟩,
     fun fp => mem_sorted_new_fps_iff,
     fun fp => mem_sorted_resolved_fps_iff,
     fun hn i => mem_new_issues_iff hn,
     fun hn i => mem_resolved_issues_iff hn,
     fun cur' base' hc hb hnc hnb =>
       ⟨new_issues_perm_eq hc hb hnc, resolved_issues_perm_eq hc hb hnb⟩⟩,
    by decide, by decide⟩

theorem C2_diff_correctness_witness :
    (dictKeys C2_current).Nodup
      ∧ (C2_C ∈ new_issues C2_current C2_baseline ↔
          ∃ fp, (fp, C2_C) ∈ C2_current ∧ fp ∉ dictKeys C2_baseline) :=
  ⟨by decide,
   (C2_diff_correctness.1 C2_current C2_baseline).2.2.2.1 (by decide) C2_C⟩

/-! ### Claim C1 -/

def C1_base : PyStr := pystr "/home/ci/backend"

def C1_iA : Issue :=
  ⟨some (pystr "G101"), some (pystr "a.go"), some (pystr "10"), some (pystr "creds"),
   some (pystr "10:   foo()\n11: \n12:   bar()"), none⟩

def C1_iB : Issue :=
  ⟨some (pystr "G101"), some (pystr "a.go"), some (pystr "55"), some (pystr "creds"),
   some (pystr "55:   foo()\n56: \n57:   bar()"), none⟩

def C1_iC : Issue :=
  ⟨some (pystr "G304"), some (pystr "/home/ci/backend/main.go"), some (pystr "10"),
   some (pystr "file inclusion"), some (pystr "10: x := f(p)"), none⟩

def C1_iD : Issue :=
  ⟨some (pystr "G304"), some (pystr "C:\\dev\\backend\\main.go"), some (pystr "10"),
   some (pystr "file inclusion"), some (pystr "10: x := f(p)"), none⟩

/-- C1 counterexample. Left conjunct: two findings identical except for line
number and shifted code-prefix numbering (identical snippet content with a
blank middle line) fingerprint differently, because the numbered blank line
leaves a number-dependent `"11:"` / `"56:"` residue in the anchor. Right
conjunct: two findings identical except for the absolute path prefix (and
separator style) fingerprint differently when the relative part contains no
module-root marker, because the cross-platform fallback then returns the
whole foreign absolute path. -/
theorem C1_counterexample :
    fingerprint C1_iA C1_base ≠ fingerprint C1_iB C1_base
      ∧ fingerprint C1_iC C1_base ≠ fingerprint C1_iD C1_base :=
  ⟨by decide, by decide⟩

instance (pr : PyStr × PyStr) : Decidable (goodLine pr) := by
  unfold goodLine
  infer_instance

theorem map_snd_congr {f : PyStr → PyStr} :
    ∀ ls1 ls2 : List (PyStr × PyStr), ls1.map Prod.snd = ls2.map Prod.snd →
      ls1.map (fun pr => f pr.2) = ls2.map (fun pr => f pr.2) := by
  intro ls1
  induction ls1 with
  | nil =>
    intro ls2 h
    have h2 : ls2 = [] := by
      cases ls2 with
      | nil => rfl
      | cons b u => exact absurd h (by simp)
    rw [h2]
  | cons a t ih =>
    intro ls2 h
    cases ls2 with
    | nil => exact absurd h (by simp)
    | cons b u =>
      rw [List.map_cons, List.map_cons] at h ⊢
      injection h with h1 h2
      rw [h1, ih u h2]

/-- C1 amended: two findings with identical rule and details produce the
same fingerprint (a) when they have the same file and their code snippets
are gosec-numbered lines carrying the same contents behind possibly
different decimal line numbers, provided every line's content is non-blank
(a numbered blank line such as `"11: "` breaks the invariance, see the
counterexample), and (b) when they have the same code and their file paths
normalize to the same repository-relative path — which covers absolute
prefixes of either OS whenever the base-directory prefix matches or a
module-root marker anchors the same relative suffix, but not marker-less
foreign absolute paths. -/
theorem C1_amended_fingerprint_invariance :
    ∀ (i1 i2 : Issue) (base : PyStr),
      i1.rule_id = i2.rule_id → i1.details = i2.details →
      ((i1.file = i2.file ∧
        ∃ ls1 ls2 : List (PyStr × PyStr),
          i1.code = some (numberedCode ls1) ∧ i2.code = some (numberedCode ls2) ∧
          ls1.map Prod.snd = ls2.map Prod.snd ∧
          (∀ pr ∈ ls1, goodLine pr) ∧ (∀ pr ∈ ls2, goodLine pr))
       ∨ (i1.code = i2.code ∧
          normalize_path (i1.file.getD []) base = normalize_path (i2.file.getD []) base)) →
      fingerprint i1 base = fingerprint i2 base := by
  intro i1 i2 base hrule hdet hcase
  unfold fingerprint
  rcases hcase with ⟨hfile, ls1, ls2, hc1, hc2, hsnd, hg1, hg2⟩ | ⟨hcode, hnorm⟩
  · rw [hrule, hdet, hfile, hc1, hc2, Option.getD_some, Option.getD_some,
      anchorOf_numberedCode hg1, anchorOf_numberedCode hg2,
      map_snd_congr ls1 ls2 hsnd]
  · rw [hrule, hdet, hcode, hnorm]

def C1_w1 : Issue :=
  ⟨some (pystr "G304"), some (pystr "/home/ci/backend/internal/foo/bar.go"),
   some (pystr "12"), some (pystr "file inclusion"),
   some (pystr "12: data, err := os.ReadFile(p)"), none⟩

def C1_w2 : Issue :=
  ⟨some (pystr "G304"), some (pystr "C:/dev/x/backend/internal/foo/bar.go"),
   some (pystr "12"), some (pystr "file inclusion"),
   some (pystr "12: data, err := os.ReadFile(p)"), none⟩

def C1_wls1 : List (PyStr × PyStr) :=
  [(pystr "10", pystr "  foo()"), (pystr "11", pystr "  bar()")]

def C1_wls2 : List (PyStr × PyStr) :=
  [(pystr "55", pystr "  foo()"), (pystr "56", pystr "  bar()")]

def C1_w3 : Issue :=
  ⟨some (pystr "G101"), some (pystr "a.go"), some (pystr "10"), some (pystr "creds"),
   some (numberedCode C1_wls1), none⟩

def C1_w4 : Issue :=
  ⟨some (pystr "G101"), some (pystr "a.go"), some (pystr "55"), some (pystr "creds"),
   some (numberedCode C1_wls2), none⟩

theorem C1_amended_fingerprint_invariance_witness :
    (normalize_path (C1_w1.file.getD []) C1_base
        = normalize_path (C1_w2.file.getD []) C1_base
      ∧ fingerprint C1_w1 C1_base = fingerprint C1_w2 C1_base)
    ∧ ((∀ pr ∈ C1_wls1, goodLine pr) ∧ (∀ pr ∈ C1_wls2, goodLine pr)
      ∧ fingerprint C1_w3 C1_base = fingerprint C1_w4 C1_base) :=
  ⟨⟨by decide,
    C1_amended_fingerprint_invariance C1_w1 C1_w2 C1_base rfl rfl
      (Or.inr ⟨rfl, by decide⟩)⟩,
   ⟨by decide, by decide,
    C1_amended_fingerprint_invariance C1_w3 C1_w4 C1_base rfl rfl
      (Or.inl ⟨rfl, C1_wls1, C1_wls2, rfl, rfl, by decide, by decide, by decide⟩)⟩⟩

end GosecCompare
